import Mathlib

/-!
Verification development for the mayan-edms lock manager and the document
page transform views.

The lock manager implementation (`mayan/apps/lock_manager/models.py`) is not
among the provided source files; only its test suite
(`mayan/apps/lock_manager/tests.py`) is. The LockStore data model and its
two operations are therefore modelled from the specification (spec §3–§4)
and checked against the behaviours the tests exercise.

The zoom and rotation functions are translated directly from
`mayan/apps/documents/views.py`.
-/

namespace LockManager

/-- Modelled from the spec: `LockRecord` (spec §3) — the lock manager's
`models.py` is missing from the sources, only its tests are present. A
record stores the lock `name`, the acquisition timestamp `acquired_at`,
an optional `timeout_seconds` (absence means the lock never expires by
time), and an opaque `holder_token` (modelled as a `Nat`). Time is
modelled as a `Nat` number of seconds. -/
structure LockRecord where
  name : String
  acquired_at : Nat
  timeout_seconds : Option Nat
  holder_token : Nat
deriving DecidableEq

/-- Modelled from the spec: a `LockHandle` wraps `(name, holder_token)`
(spec §4.1). -/
structure LockHandle where
  name : String
  holder_token : Nat
deriving DecidableEq

/-- Modelled from the spec: the single error kind `LockError`
(`AlreadyLocked`), spec §7. -/
inductive LockError where
  | AlreadyLocked
deriving DecidableEq

/-- The registry mapping lock names to records, modelled as the list of
rows of the backing store. -/
abbrev Registry := List LockRecord

/-- Modelled from the spec: a record has expired when `timeout_seconds` is
set and `now >= acquired_at + timeout_seconds` (spec §4.1 step 2); a record
with no `timeout_seconds` never expires by time (spec §3). -/
def isExpired (now : Nat) (r : LockRecord) : Bool :=
  match r.timeout_seconds with
  | none => false
  | some t => r.acquired_at + t ≤ now

/-- Look up the record currently occupying `name`, if any. -/
def findRecord (reg : Registry) (name : String) : Option LockRecord :=
  reg.find? (fun r => r.name == name)

/-- Remove every record occupying `name`. -/
def removeRecord (reg : Registry) (name : String) : Registry :=
  reg.filter (fun r => r.name != name)

/-- Modelled from the spec: `acquire(name, timeout)` (spec §4.1). If no
record exists for `name`, or the existing record has expired, a fresh
record is created (overwriting the expired one) and a handle is returned;
otherwise the call fails with `LockError` (`AlreadyLocked`). Fresh
`holder_token` generation is modelled by the explicit `token` argument;
the call is a single atomic step (spec §4.1 concurrency requirement). -/
def acquire_lock (reg : Registry) (now : Nat) (name : String)
    (timeout : Option Nat) (token : Nat) :
    Except LockError (LockHandle × Registry) :=
  match findRecord reg name with
  | none =>
      Except.ok (⟨name, token⟩, ⟨name, now, timeout, token⟩ :: reg)
  | some r =>
      if isExpired now r then
        Except.ok (⟨name, token⟩, ⟨name, now, timeout, token⟩ :: removeRecord reg name)
      else
        Except.error LockError.AlreadyLocked

/-- Modelled from the spec: `release(handle)` removes the record for
`handle.name` unconditionally if present, does not validate
`holder_token`, and never fails (spec §4.1). The `Except` result mirrors
the API's error channel; `release` always answers on the `ok` side. -/
def release_lock (reg : Registry) (handle : LockHandle) :
    Except LockError Registry :=
  Except.ok (removeRecord reg handle.name)

/-- Number of records currently occupying `name`. -/
def countName (reg : Registry) (name : String) : Nat :=
  (reg.filter (fun r => r.name == name)).length

/-- Number of live (non-expired) records occupying `name` at time `now`. -/
def liveCount (reg : Registry) (now : Nat) (name : String) : Nat :=
  (reg.filter (fun r => r.name == name && ! isExpired now r)).length

/-- Registry states reachable from the empty store by `acquire` and
`release` steps. -/
inductive Reachable : Registry → Prop where
  | empty : Reachable []
  | acq {reg : Registry} {now : Nat} {name : String} {timeout : Option Nat}
      {token : Nat} {h : LockHandle} {reg' : Registry} :
      Reachable reg →
      acquire_lock reg now name timeout token = Except.ok (h, reg') →
      Reachable reg'
  | rel {reg : Registry} {handle : LockHandle} {reg' : Registry} :
      Reachable reg →
      release_lock reg handle = Except.ok reg' →
      Reachable reg'

lemma findRecord_removeRecord_self (reg : Registry) (name : String) :
    findRecord (removeRecord reg name) name = none := by
  induction reg with
  | nil => rfl
  | cons r reg ih =>
    simp only [removeRecord, findRecord] at ih ⊢
    by_cases h : r.name = name
    · rw [List.filter_cons_of_neg (by simp [h])]
      exact ih
    · rw [List.filter_cons_of_pos (by simp [h]), List.find?_cons_of_neg _ (by simp [h])]
      exact ih

lemma findRecord_removeRecord_ne (reg : Registry) {m n : String} (h : m ≠ n) :
    findRecord (removeRecord reg n) m = findRecord reg m := by
  induction reg with
  | nil => rfl
  | cons r reg ih =>
    simp only [removeRecord, findRecord] at ih ⊢
    by_cases hr : r.name = n
    · have hm : ¬(r.name == m) = true := by
        simp [hr]
        exact fun hc => (h hc.symm).elim
      rw [List.filter_cons_of_neg (by simp [hr]),
        List.find?_cons_of_neg (p := fun x : LockRecord => x.name == m) _ hm]
      exact ih
    · rw [List.filter_cons_of_pos (by simp [hr])]
      by_cases hm : r.name = m
      · rw [List.find?_cons_of_pos _ (by simp [hm]), List.find?_cons_of_pos _ (by simp [hm])]
      · rw [List.find?_cons_of_neg _ (by simp [hm]), List.find?_cons_of_neg _ (by simp [hm])]
        exact ih

lemma countName_removeRecord_self (reg : Registry) (name : String) :
    countName (removeRecord reg name) name = 0 := by
  induction reg with
  | nil => rfl
  | cons r reg ih =>
    simp only [countName, removeRecord] at ih ⊢
    by_cases h : r.name = name
    · rw [List.filter_cons_of_neg (by simp [h])]
      exact ih
    · rw [List.filter_cons_of_pos (by simp [h]), List.filter_cons_of_neg (by simp [h])]
      exact ih

lemma countName_removeRecord_ne (reg : Registry) {m n : String} (h : m ≠ n) :
    countName (removeRecord reg n) m = countName reg m := by
  induction reg with
  | nil => rfl
  | cons r reg ih =>
    simp only [countName, removeRecord] at ih ⊢
    by_cases hr : r.name = n
    · have hm : ¬(r.name == m) = true := by
        simp [hr]
        exact fun hc => (h hc.symm).elim
      rw [List.filter_cons_of_neg (by simp [hr]),
        List.filter_cons_of_neg (p := fun x : LockRecord => x.name == m) hm]
      exact ih
    · rw [List.filter_cons_of_pos (by simp [hr])]
      by_cases hm : r.name = m
      · rw [List.filter_cons_of_pos (by simp [hm]), List.filter_cons_of_pos (by simp [hm]),
          List.length_cons, List.length_cons, ih]
      · rw [List.filter_cons_of_neg (by simp [hm]), List.filter_cons_of_neg (by simp [hm])]
        exact ih

lemma countName_eq_zero_of_findRecord_none {reg : Registry} {name : String}
    (h : findRecord reg name = none) : countName reg name = 0 := by
  induction reg with
  | nil => rfl
  | cons r reg ih =>
    simp only [findRecord] at h ih
    simp only [countName] at ih ⊢
    by_cases hr : r.name = name
    · rw [List.find?_cons_of_pos _ (by simp [hr])] at h
      exact absurd h (by simp)
    · rw [List.find?_cons_of_neg _ (by simp [hr])] at h
      rw [List.filter_cons_of_neg (by simp [hr])]
      exact ih h

lemma findRecord_cons_self (r : LockRecord) (reg : Registry)
    (h : r.name = name) : findRecord (r :: reg) name = some r := by
  simp [findRecord, List.find?, h]

lemma findRecord_cons_ne (r : LockRecord) (reg : Registry)
    (h : r.name ≠ name) : findRecord (r :: reg) name = findRecord reg name := by
  simp only [findRecord]
  rw [List.find?_cons_of_neg _ (by simp [h])]

lemma countName_cons_self (r : LockRecord) (reg : Registry)
    (h : r.name = name) : countName (r :: reg) name = countName reg name + 1 := by
  simp only [countName]
  rw [List.filter_cons_of_pos (by simp [h]), List.length_cons]

lemma countName_cons_ne (r : LockRecord) (reg : Registry)
    (h : r.name ≠ name) : countName (r :: reg) name = countName reg name := by
  simp only [countName]
  rw [List.filter_cons_of_neg (by simp [h])]

lemma removeRecord_removeRecord (reg : Registry) (name : String) :
    removeRecord (removeRecord reg name) name = removeRecord reg name := by
  induction reg with
  | nil => rfl
  | cons r reg ih =>
    simp only [removeRecord] at ih ⊢
    by_cases h : r.name = name
    · rw [List.filter_cons_of_neg (by simp [h])]
      exact ih
    · rw [List.filter_cons_of_pos (by simp [h]), List.filter_cons_of_pos (by simp [h]), ih]

lemma acquire_ok_shape {reg : Registry} {now : Nat} {name : String}
    {timeout : Option Nat} {token : Nat} {h : LockHandle} {reg' : Registry}
    (hacq : acquire_lock reg now name timeout token = Except.ok (h, reg')) :
    h = ⟨name, token⟩ ∧
    ((findRecord reg name = none ∧ reg' = ⟨name, now, timeout, token⟩ :: reg) ∨
     reg' = ⟨name, now, timeout, token⟩ :: removeRecord reg name) := by
  unfold acquire_lock at hacq
  split at hacq
  next hfind =>
    simp only [Except.ok.injEq, Prod.mk.injEq] at hacq
    exact ⟨hacq.1.symm, Or.inl ⟨hfind, hacq.2.symm⟩⟩
  next r hfind =>
    split at hacq
    · simp only [Except.ok.injEq, Prod.mk.injEq] at hacq
      exact ⟨hacq.1.symm, Or.inr hacq.2.symm⟩
    · exact absurd hacq (by simp)

lemma findRecord_after_acquire {reg : Registry} {now : Nat} {name : String}
    {timeout : Option Nat} {token : Nat} {h : LockHandle} {reg' : Registry}
    (hacq : acquire_lock reg now name timeout token = Except.ok (h, reg')) :
    findRecord reg' name = some ⟨name, now, timeout, token⟩ := by
  rcases (acquire_ok_shape hacq).2 with ⟨_, he⟩ | he <;> subst he <;>
    exact findRecord_cons_self _ _ rfl

lemma acquire_of_findRecord_none {reg : Registry} {name : String}
    (hfind : findRecord reg name = none) (now : Nat) (timeout : Option Nat)
    (token : Nat) :
    acquire_lock reg now name timeout token =
      Except.ok (⟨name, token⟩, ⟨name, now, timeout, token⟩ :: reg) := by
  unfold acquire_lock
  rw [hfind]

lemma reachable_countName_le_one {reg : Registry} (hreach : Reachable reg)
    (m : String) : countName reg m ≤ 1 := by
  induction hreach with
  | empty => simp [countName]
  | @acq reg now name timeout token h reg' _ hacq ih =>
    rcases (acquire_ok_shape hacq).2 with ⟨hfind, he⟩ | he <;> subst he
    · by_cases hm : name = m
      · subst hm
        rw [countName_cons_self _ _ rfl, countName_eq_zero_of_findRecord_none hfind]
      · rw [countName_cons_ne _ _ hm]
        exact ih
    · by_cases hm : name = m
      · subst hm
        rw [countName_cons_self _ _ rfl, countName_removeRecord_self]
      · rw [countName_cons_ne _ _ hm, countName_removeRecord_ne _ (Ne.symm hm)]
        exact ih
  | @rel reg handle reg' _ hrel ih =>
    simp only [release_lock, Except.ok.injEq] at hrel
    subst hrel
    by_cases hm : handle.name = m
    · subst hm
      rw [countName_removeRecord_self]
      exact Nat.zero_le 1
    · rw [countName_removeRecord_ne _ (Ne.symm hm)]
      exact ih

lemma liveCount_le_countName (reg : Registry) (now : Nat) (name : String) :
    liveCount reg now name ≤ countName reg name := by
  induction reg with
  | nil => exact Nat.le_refl 0
  | cons r reg ih =>
    simp only [liveCount, countName] at ih ⊢
    by_cases h : (r.name == name && ! isExpired now r) = true
    · have h1 : (r.name == name) = true := (Bool.and_eq_true _ _ |>.mp h).1
      rw [List.filter_cons_of_pos
          (p := fun x : LockRecord => x.name == name && ! isExpired now x) h,
        List.filter_cons_of_pos (p := fun x : LockRecord => x.name == name) h1,
        List.length_cons, List.length_cons]
      exact Nat.succ_le_succ ih
    · rw [List.filter_cons_of_neg
          (p := fun x : LockRecord => x.name == name && ! isExpired now x) h]
      by_cases h1 : (r.name == name) = true
      · rw [List.filter_cons_of_pos (p := fun x : LockRecord => x.name == name) h1,
          List.length_cons]
        exact Nat.le_succ_of_le ih
      · rw [List.filter_cons_of_neg (p := fun x : LockRecord => x.name == name) h1]
        exact ih

/-- C1: for every lock name, `acquire(name, timeout)` fails with `LockError`
if and only if a live (non-expired) record for that name exists at the time
of the call; when it does not fail it succeeds, returning a `LockHandle`.
In particular a second acquire on a held, non-expired name raises
`LockError` without blocking (the model answers immediately). -/
theorem acquire_fails_iff_live (reg : Registry) (now : Nat) (name : String)
    (timeout : Option Nat) (token : Nat) :
    ((acquire_lock reg now name timeout token = Except.error LockError.AlreadyLocked)
      ↔ ∃ r, findRecord reg name = some r ∧ isExpired now r = false) ∧
    (acquire_lock reg now name timeout token ≠ Except.error LockError.AlreadyLocked →
      ∃ reg', acquire_lock reg now name timeout token =
        Except.ok (⟨name, token⟩, reg')) := by
  unfold acquire_lock
  cases hfind : findRecord reg name with
  | none => simp
  | some r =>
    by_cases he : isExpired now r <;> simp [he]

/-- C1 witness: on a registry holding a live record for the name, acquire
fails; on the empty registry it succeeds. -/
theorem acquire_fails_iff_live_witness :
    (acquire_lock [⟨"L", 0, some 5, 1⟩] 3 "L" none 2 =
        Except.error LockError.AlreadyLocked) ∧
    (∃ reg', acquire_lock [] 0 "L" none 1 = Except.ok (⟨"L", 1⟩, reg')) :=
  ⟨(acquire_fails_iff_live [⟨"L", 0, some 5, 1⟩] 3 "L" none 2).1.mpr
      ⟨⟨"L", 0, some 5, 1⟩, by decide⟩,
   (acquire_fails_iff_live [] 0 "L" none 1).2 (fun hc => Except.noConfusion hc)⟩

/-- C3: `release(handle)` is total: for every registry state and handle it
answers on the success side (never raises), a second release of the same
handle also succeeds and is a silent no-op, and no error value is ever
returned — in particular this covers already-released and expired records. -/
theorem release_total (reg : Registry) (handle : LockHandle) :
    (∃ reg', release_lock reg handle = Except.ok reg' ∧
       ∃ reg'', release_lock reg' handle = Except.ok reg'' ∧ reg'' = reg') ∧
    ∀ e, release_lock reg handle ≠ Except.error e := by
  refine ⟨⟨removeRecord reg handle.name, rfl,
    removeRecord (removeRecord reg handle.name) handle.name, rfl,
    removeRecord_removeRecord reg handle.name⟩, ?_⟩
  intro e hcontra
  exact absurd hcontra (by simp [release_lock])

/-- C5: in every reachable registry state, at most one live (non-expired)
record exists per name, at every instant. -/
theorem reachable_at_most_one_live {reg : Registry} (hreach : Reachable reg)
    (now : Nat) (name : String) : liveCount reg now name ≤ 1 :=
  Nat.le_trans (liveCount_le_countName reg now name)
    (reachable_countName_le_one hreach name)

/-- C5 witness: the invariant evaluated on the concrete reachable state
obtained by one acquire from the empty registry. -/
theorem reachable_at_most_one_live_witness :
    liveCount [⟨"L", 0, some 5, 1⟩] 3 "L" ≤ 1 :=
  reachable_at_most_one_live
    (Reachable.acq Reachable.empty
      (rfl : acquire_lock [] 0 "L" (some 5) 1 =
        Except.ok (⟨"L", 1⟩, [⟨"L", 0, some 5, 1⟩])))
    3 "L"

/-- C2: if a lock on a name is acquired at time `now1` with timeout `tmo`,
every subsequent acquire on that name strictly before `now1 + tmo` fails
with `LockError`, and every acquire at or after `now1 + tmo` succeeds with
a fresh handle, without any explicit release of the first lock. -/
theorem acquire_timeout_expiry {reg : Registry} {now1 : Nat} {name : String}
    {tmo : Nat} {token1 : Nat} {h1 : LockHandle} {reg1 : Registry}
    (hacq : acquire_lock reg now1 name (some tmo) token1 = Except.ok (h1, reg1)) :
    (∀ now2 timeout2 token2, now2 < now1 + tmo →
      acquire_lock reg1 now2 name timeout2 token2 =
        Except.error LockError.AlreadyLocked) ∧
    (∀ now2 timeout2 token2, now1 + tmo ≤ now2 →
      ∃ reg2, acquire_lock reg1 now2 name timeout2 token2 =
        Except.ok (⟨name, token2⟩, reg2)) := by
  have hfind := findRecord_after_acquire hacq
  constructor
  · intro now2 timeout2 token2 hlt
    have hexp : isExpired now2 ⟨name, now1, some tmo, token1⟩ = false := by
      simp [isExpired]
      omega
    unfold acquire_lock
    rw [hfind]
    simp [hexp]
  · intro now2 timeout2 token2 hge
    have hexp : isExpired now2 ⟨name, now1, some tmo, token1⟩ = true := by
      simp [isExpired]
      omega
    refine ⟨⟨name, now2, timeout2, token2⟩ :: removeRecord reg1 name, ?_⟩
    unfold acquire_lock
    rw [hfind]
    simp [hexp]

/-- C2 witness: acquire with timeout 1 at time 0; a second acquire at time 0
fails, a second acquire at time 1 succeeds. -/
theorem acquire_timeout_expiry_witness :
    acquire_lock [⟨"L", 0, some 1, 1⟩] 0 "L" none 2 =
      Except.error LockError.AlreadyLocked ∧
    ∃ reg2, acquire_lock [⟨"L", 0, some 1, 1⟩] 1 "L" none 2 =
      Except.ok (⟨"L", 2⟩, reg2) := by
  have hacq : acquire_lock [] 0 "L" (some 1) 1 =
      Except.ok (⟨"L", 1⟩, [⟨"L", 0, some 1, 1⟩]) := rfl
  have hmain := acquire_timeout_expiry hacq
  exact ⟨hmain.1 0 none 2 (by omega), hmain.2 1 none 2 (by omega)⟩

/-- C4: release removes whatever record currently occupies `handle.name`
without validating `holder_token`: even when the current record belongs to
a different holder (who re-acquired the name after the original lock
expired), release deletes that holder's record. -/
theorem release_unvalidated (reg : Registry) (handle : LockHandle)
    (r : LockRecord) (_hr : findRecord reg handle.name = some r)
    (_htok : r.holder_token ≠ handle.holder_token) :
    release_lock reg handle = Except.ok (removeRecord reg handle.name) ∧
    findRecord (removeRecord reg handle.name) handle.name = none :=
  ⟨rfl, findRecord_removeRecord_self reg handle.name⟩

/-- C4 witness: the lock acquired by holder 1 expired and holder 2
re-acquired the name; holder 1's stale release removes holder 2's record. -/
theorem release_unvalidated_witness :
    release_lock [⟨"L", 2, some 1, 2⟩] ⟨"L", 1⟩ =
      Except.ok (removeRecord [⟨"L", 2, some 1, 2⟩] "L") ∧
    findRecord (removeRecord [⟨"L", 2, some 1, 2⟩] "L") "L" = none :=
  release_unvalidated [⟨"L", 2, some 1, 2⟩] ⟨"L", 1⟩ ⟨"L", 2, some 1, 2⟩
    rfl (by decide)

/-- C6: linearized mutual exclusion. `acquire` is modelled as one atomic
step, which is the spec's linearizability requirement for the
check-then-create sequence; under it, two overlapping acquire calls on the
same name serialize, and whichever runs second while the first holder's
record is not yet expired fails — they never both succeed. -/
theorem acquire_linearized_exclusion {reg : Registry} {now1 : Nat}
    {name : String} {timeout1 : Option Nat} {token1 : Nat} {h1 : LockHandle}
    {reg1 : Registry}
    (hacq : acquire_lock reg now1 name timeout1 token1 = Except.ok (h1, reg1))
    (now2 : Nat)
    (hlive : isExpired now2 ⟨name, now1, timeout1, token1⟩ = false) :
    ∀ timeout2 token2, acquire_lock reg1 now2 name timeout2 token2 =
      Except.error LockError.AlreadyLocked := by
  intro timeout2 token2
  have hfind := findRecord_after_acquire hacq
  unfold acquire_lock
  rw [hfind]
  simp [hlive]

/-- C6 witness: after a successful acquire at time 5 with timeout 10, a
second acquire at time 9 (serialized after it) fails. -/
theorem acquire_linearized_exclusion_witness :
    acquire_lock [⟨"L", 5, some 10, 1⟩] 9 "L" none 2 =
      Except.error LockError.AlreadyLocked := by
  have hacq : acquire_lock [] 5 "L" (some 10) 1 =
      Except.ok (⟨"L", 1⟩, [⟨"L", 5, some 10, 1⟩]) := rfl
  exact acquire_linearized_exclusion hacq 9 (by decide) none 2

/-- C7: acquire, then release of the returned handle, then acquire again on
the same name: the second acquire succeeds and returns a handle. -/
theorem release_then_reacquire {reg : Registry} {now1 : Nat} {name : String}
    {t1 : Option Nat} {token1 : Nat} {h1 : LockHandle} {reg1 reg2 : Registry}
    (hacq : acquire_lock reg now1 name t1 token1 = Except.ok (h1, reg1))
    (hrel : release_lock reg1 h1 = Except.ok reg2) :
    ∀ now2 t2 token2, ∃ reg3,
      acquire_lock reg2 now2 name t2 token2 =
        Except.ok (⟨name, token2⟩, reg3) := by
  intro now2 t2 token2
  have hh : h1 = ⟨name, token1⟩ := (acquire_ok_shape hacq).1
  subst hh
  simp only [release_lock, Except.ok.injEq] at hrel
  subst hrel
  exact ⟨_, acquire_of_findRecord_none (findRecord_removeRecord_self reg1 name)
    now2 t2 token2⟩

/-- C7 witness: the acquire-release-acquire sequence on a concrete name. -/
theorem release_then_reacquire_witness :
    ∃ reg3, acquire_lock (removeRecord [⟨"L", 0, none, 1⟩] "L") 1 "L" none 2 =
      Except.ok (⟨"L", 2⟩, reg3) := by
  have hacq : acquire_lock [] 0 "L" none 1 =
      Except.ok (⟨"L", 1⟩, [⟨"L", 0, none, 1⟩]) := rfl
  have hrel : release_lock [⟨"L", 0, none, 1⟩] ⟨"L", 1⟩ =
      Except.ok (removeRecord [⟨"L", 0, none, 1⟩] "L") := rfl
  exact release_then_reacquire hacq hrel 1 none 2

/-- C8: operations on distinct names do not interact: a successful acquire
on name `a` leaves the record (or absence of one) for any other name `b`
unchanged, the record for `a` is now held, and if `b` was free it can still
be acquired afterwards — both locks are then held simultaneously. -/
theorem acquire_frame {reg : Registry} {now : Nat} {a b : String}
    {t : Option Nat} {token : Nat} {h1 : LockHandle} {reg' : Registry}
    (hne : b ≠ a)
    (hacq : acquire_lock reg now a t token = Except.ok (h1, reg')) :
    findRecord reg' b = findRecord reg b ∧
    findRecord reg' a = some ⟨a, now, t, token⟩ ∧
    (findRecord reg b = none → ∀ now2 t2 token2, ∃ reg2,
      acquire_lock reg' now2 b t2 token2 = Except.ok (⟨b, token2⟩, reg2)) := by
  have hfind := findRecord_after_acquire hacq
  have hframe : findRecord reg' b = findRecord reg b := by
    rcases (acquire_ok_shape hacq).2 with ⟨_, he⟩ | he <;> subst he
    · exact findRecord_cons_ne _ _ (Ne.symm hne)
    · rw [findRecord_cons_ne _ _ (Ne.symm hne)]
      exact findRecord_removeRecord_ne reg hne
  refine ⟨hframe, hfind, fun hb now2 t2 token2 => ?_⟩
  exact ⟨_, acquire_of_findRecord_none (hframe.trans hb) now2 t2 token2⟩

/-- C8 witness: acquiring name A from the empty registry leaves name B
unoccupied, A is held, and B can then be acquired as well. -/
theorem acquire_frame_witness :
    findRecord [⟨"A", 0, none, 1⟩] "B" = findRecord [] "B" ∧
    ∃ reg2, acquire_lock [⟨"A", 0, none, 1⟩] 7 "B" none 2 =
      Except.ok (⟨"B", 2⟩, reg2) := by
  have hacq : acquire_lock [] 0 "A" none 1 =
      Except.ok (⟨"A", 1⟩, [⟨"A", 0, none, 1⟩]) := rfl
  have hmain := acquire_frame (b := "B") (by decide) hacq
  exact ⟨hmain.1, hmain.2.2 rfl 7 none 2⟩

end LockManager

namespace DocumentViews

/-- Zoom step of `document_page_zoom_in` in
`mayan/apps/documents/views.py`: `ZOOM_MAX_LEVEL if x + ZOOM_PERCENT_STEP >
ZOOM_MAX_LEVEL else x + ZOOM_PERCENT_STEP`. The configured constants
`ZOOM_MAX_LEVEL` and `ZOOM_PERCENT_STEP` come from the settings module and
are taken as parameters. Python integers are unbounded, so `Int`. -/
def zoom_in_function (zoomMax zoomStep x : Int) : Int :=
  if x + zoomStep > zoomMax then zoomMax else x + zoomStep

/-- Zoom step of `document_page_zoom_out` in
`mayan/apps/documents/views.py`: `ZOOM_MIN_LEVEL if x - ZOOM_PERCENT_STEP <
ZOOM_MIN_LEVEL else x - ZOOM_PERCENT_STEP`. -/
def zoom_out_function (zoomMin zoomStep x : Int) : Int :=
  if x - zoomStep < zoomMin then zoomMin else x - zoomStep

/-- Zoom coercion of `get_document_image` in
`mayan/apps/documents/views.py`: `if zoom < ZOOM_MIN_LEVEL: zoom =
ZOOM_MIN_LEVEL` followed by `if zoom > ZOOM_MAX_LEVEL: zoom =
ZOOM_MAX_LEVEL`, applied in that order to the requested zoom. -/
def coerce_zoom (zoomMin zoomMax zoom : Int) : Int :=
  let z1 := if zoom < zoomMin then zoomMin else zoom
  if z1 > zoomMax then zoomMax else z1

/-- Rotation step of `document_page_rotate_right` in
`mayan/apps/documents/views.py`: `(x + ROTATION_STEP) % 360`. Lean's `Int`
`%` (`Int.emod`) agrees with Python's `%` on a positive modulus: the result
is non-negative. -/
def rotate_right_function (rotationStep x : Int) : Int :=
  (x + rotationStep) % 360

/-- Rotation step of `document_page_rotate_left` in
`mayan/apps/documents/views.py`: `(x - ROTATION_STEP) % 360`. -/
def rotate_left_function (rotationStep x : Int) : Int :=
  (x - rotationStep) % 360

/-- Rotation parsing of `get_document_image` in
`mayan/apps/documents/views.py`: `int(request.GET.get('rotation',
DEFAULT_ROTATION)) % 360`, applied to the parsed integer. -/
def parse_rotation_view (x : Int) : Int :=
  x % 360

/-- C9: the page zoom views clamp to the configured range: for every
integer zoom, `document_page_zoom_in`'s zoom function never exceeds
`ZOOM_MAX_LEVEL`, `document_page_zoom_out`'s never goes below
`ZOOM_MIN_LEVEL`, and `get_document_image` coerces any requested zoom into
`[ZOOM_MIN_LEVEL, ZOOM_MAX_LEVEL]` (the latter provided the configured
minimum does not exceed the maximum). -/
theorem zoom_clamped (zoomMin zoomMax zoomStep x z : Int)
    (hcfg : zoomMin ≤ zoomMax) :
    zoom_in_function zoomMax zoomStep x ≤ zoomMax ∧
    zoomMin ≤ zoom_out_function zoomMin zoomStep x ∧
    zoomMin ≤ coerce_zoom zoomMin zoomMax z ∧
    coerce_zoom zoomMin zoomMax z ≤ zoomMax := by
  refine ⟨?_, ?_, ?_, ?_⟩ <;>
    dsimp only [zoom_in_function, zoom_out_function, coerce_zoom] <;>
    split <;> (try split) <;> omega

/-- C9 witness: the configured defaults (minimum 10, maximum 200, step 50)
with a concrete current zoom of 30 and a requested zoom of 500. -/
theorem zoom_clamped_witness :
    zoom_in_function 200 50 30 ≤ 200 ∧
    10 ≤ zoom_out_function 10 50 30 ∧
    10 ≤ coerce_zoom 10 200 500 ∧
    coerce_zoom 10 200 500 ≤ 200 :=
  zoom_clamped 10 200 50 30 500 (by decide)

/-- C10: page rotation is always normalized modulo 360: for every integer
input, the rotation functions of `document_page_rotate_right` and
`document_page_rotate_left`, and the rotation parsed by
`get_document_image`, land in `[0, 360)` — as with Python's `%`, which is
non-negative for a positive modulus, also on negative inputs. -/
theorem rotation_normalized_mod360 (rotationStep x : Int) :
    (0 ≤ rotate_right_function rotationStep x ∧
      rotate_right_function rotationStep x < 360) ∧
    (0 ≤ rotate_left_function rotationStep x ∧
      rotate_left_function rotationStep x < 360) ∧
    (0 ≤ parse_rotation_view x ∧ parse_rotation_view x < 360) := by
  unfold rotate_right_function rotate_left_function parse_rotation_view
  refine ⟨⟨?_, ?_⟩, ⟨?_, ?_⟩, ?_, ?_⟩ <;> omega

end DocumentViews
